import Mathlib

/-!
Shallow embedding of `backup.py` (a grandfather-father-son backup rotation
tool) and proofs about its specification claims.

Conventions used throughout:
* Python `datetime.datetime` values are embedded as the `Datetime` structure
  below.  Python's constructor only admits valid calendar dates
  (`1 <= year <= 9999`, real month/day, `hour <= 23`, ...), so theorems about
  datetimes coming from Python carry a `Datetime.Valid` hypothesis.
* Python exceptions are embedded as `Option`/`Except` failure values.
* Filesystem paths are embedded as `String`s joined with `/` (POSIX
  `pathlib.PurePath` behaviour on the inputs that actually occur).
-/

/-- Numeric value of a decimal digit character (`ord(c) - ord('0')`). -/
def charToDigit (c : Char) : Nat :=
  c.toNat - 48

/-- Greedily consume at most `maxN` decimal digits from `cs`, extending the
accumulator `acc` in base 10, returning the value and the unconsumed rest.
This models the digit-grabbing behaviour of CPython `strptime` directives
(`%Y` grabs up to four digits, `%m`/`%d`/`%H`/`%M`/`%S` up to two). -/
def readDigitsAux : Nat → List Char → Nat → Nat × List Char
  | 0, cs, acc => (acc, cs)
  | _ + 1, [], acc => (acc, [])
  | k + 1, c :: cs, acc =>
    if c.isDigit then readDigitsAux k cs (acc * 10 + charToDigit c)
    else (acc, c :: cs)

/-- Consume between one and `maxN` decimal digits; `none` if the input does
not start with a digit. -/
def readDigits (maxN : Nat) : List Char → Option (Nat × List Char)
  | c :: cs =>
    if c.isDigit then some (readDigitsAux (maxN - 1) cs (charToDigit c))
    else none
  | [] => none

/-- Consume one expected literal character (a separator of the format). -/
def expectChar (c : Char) : List Char → Option (List Char)
  | c' :: cs => if c' = c then some cs else none
  | [] => none

/-- Embedding of Python `datetime.datetime` (date and time of day, second
resolution; the tool never uses microseconds or time zones). -/
structure Datetime where
  year : Nat
  month : Nat
  day : Nat
  hour : Nat
  minute : Nat
  second : Nat
deriving DecidableEq, Repr

/-- Gregorian leap-year test, as in Python's `datetime`. -/
def isLeapYear (y : Nat) : Bool :=
  (y % 4 = 0 && y % 100 ≠ 0) || (y % 400 = 0)

/-- Number of days in a month, as validated by the `datetime` constructor. -/
def daysInMonth (y m : Nat) : Nat :=
  if m = 2 then (if isLeapYear y then 29 else 28)
  else if m = 4 || m = 6 || m = 9 || m = 11 then 30
  else 31

/-- The validity check performed by Python's `datetime` constructor
(`MINYEAR = 1`, `MAXYEAR = 9999`, real calendar date, valid time of day). -/
def validDT (y mo d h mi s : Nat) : Bool :=
  1 ≤ y && y ≤ 9999 && 1 ≤ mo && mo ≤ 12 && 1 ≤ d && d ≤ daysInMonth y mo &&
    h ≤ 23 && mi ≤ 59 && s ≤ 59

/-- A `Datetime` value that Python's `datetime` type can actually hold. -/
def Datetime.Valid (t : Datetime) : Prop :=
  validDT t.year t.month t.day t.hour t.minute t.second = true

instance (t : Datetime) : Decidable t.Valid := by
  unfold Datetime.Valid; infer_instance

/-- Two-digit zero-padded decimal rendering (`%02d`, values below 100). -/
def pad2 (n : Nat) : List Char :=
  [Nat.digitChar (n / 10), Nat.digitChar (n % 10)]

/-- Four-digit zero-padded decimal rendering (`%04d`, values below 10000). -/
def pad4 (n : Nat) : List Char :=
  [Nat.digitChar (n / 1000), Nat.digitChar (n / 100 % 10),
    Nat.digitChar (n / 10 % 10), Nat.digitChar (n % 10)]

/-- `t.strftime('%Y-%m-%d_%H:%M:%S')` as a character list (`ts_format` in
the source).  All groups are zero-padded; the year is four digits for every
valid Python datetime that the tool can produce. -/
def strftimeTs (t : Datetime) : List Char :=
  pad4 t.year ++ '-' :: pad2 t.month ++ '-' :: pad2 t.day ++
    '_' :: pad2 t.hour ++ ':' :: pad2 t.minute ++ ':' :: pad2 t.second

/-- `strftime` producing a `String`. -/
def strftimeStr (t : Datetime) : String :=
  String.mk (strftimeTs t)

/-- `datetime.datetime.strptime(s, '%Y-%m-%d_%H:%M:%S')`: greedy digit
groups separated by the literal `-`, `-`, `_`, `:`, `:`, the whole string
consumed ("unconverted data remains" otherwise), and the resulting fields
validated by the `datetime` constructor.  `none` models `ValueError`. -/
def strptimeTs (cs : List Char) : Option Datetime :=
  (readDigits 4 cs).bind fun yc =>
  (expectChar '-' yc.2).bind fun cs1 =>
  (readDigits 2 cs1).bind fun moc =>
  (expectChar '-' moc.2).bind fun cs2 =>
  (readDigits 2 cs2).bind fun dc =>
  (expectChar '_' dc.2).bind fun cs3 =>
  (readDigits 2 cs3).bind fun hc =>
  (expectChar ':' hc.2).bind fun cs4 =>
  (readDigits 2 cs4).bind fun mic =>
  (expectChar ':' mic.2).bind fun cs5 =>
  (readDigits 2 cs5).bind fun sc =>
  match sc.2 with
  | [] =>
    if validDT yc.1 moc.1 dc.1 hc.1 mic.1 sc.1 then
      some ⟨yc.1, moc.1, dc.1, hc.1, mic.1, sc.1⟩
    else none
  | _ :: _ => none

/-- `strptime` on a `String`. -/
def strptimeStr (s : String) : Option Datetime :=
  strptimeTs s.data

/-- Embedding of `Backup = namedtuple("Backup", ['timestamp'])`. -/
structure Backup where
  timestamp : Datetime
deriving DecidableEq, Repr

/-- `data_dir_name = '_data'`. -/
def data_dir_name : String :=
  "_data"

/-- `str(PurePath(a) / b)` for the relative, already-normalised path
components this program joins. -/
def pjoin (a b : String) : String :=
  a ++ "/" ++ b

/-- `backup_to_path`: a chain (leaf to root) becomes a relative path whose
components are the timestamps oldest first (`reversed(backups)`), each
rendered with `strftime`.  `PurePath('').joinpath()` of no components
stringifies to `"."`. -/
def backup_to_path (backups : List Backup) : String :=
  match (backups.reverse).map (fun b => strftimeStr b.timestamp) with
  | [] => "."
  | c :: cs => cs.foldl pjoin c

/-- `path_to_backup`: parse the path string as one timestamp (`strptime` on
`str(path)`) and prepend it to the parent chain (`parents or []`).  `none`
models the `ValueError` escaping the call. -/
def path_to_backup (path : String) (parents : Option (List Backup)) :
    Option (List Backup) :=
  (strptimeStr path).map fun ts => { timestamp := ts } :: parents.getD []

/-! ### Ordering of datetimes, backups and chains

Python compares `datetime` values chronologically, which coincides with
lexicographic comparison of the field tuple `(year, month, day, hour,
minute, second)`; tuples and lists compare lexicographically with a strict
prefix comparing less. -/

/-- Three-way comparison on `Nat`. -/
def natCmp (a b : Nat) : Ordering :=
  if a < b then .lt else if b < a then .gt else .eq

/-- Lexicographic three-way comparison of lists (Python list comparison:
elementwise, a strict prefix is smaller). -/
def cmpLex (c : α → α → Ordering) : List α → List α → Ordering
  | [], [] => .eq
  | [], _ :: _ => .lt
  | _ :: _, [] => .gt
  | a :: as, b :: bs => (c a b).then (cmpLex c as bs)

/-- The comparison tuple of a `Datetime`. -/
def Datetime.fields (t : Datetime) : List Nat :=
  [t.year, t.month, t.day, t.hour, t.minute, t.second]

/-- Chronological three-way comparison of datetimes (Python `datetime`
ordering). -/
def dtCmp (a b : Datetime) : Ordering :=
  cmpLex natCmp a.fields b.fields

/-- Python `a < b` on datetimes. -/
def dtLtB (a b : Datetime) : Bool :=
  match dtCmp a b with
  | .lt => true
  | _ => false

/-- Python `a >= b` on datetimes (used by the rotation policy). -/
def dtGeB (a b : Datetime) : Bool :=
  match dtCmp a b with
  | .lt => false
  | _ => true

/-- The BackupChain invariant of the spec: timestamps strictly decreasing
from index 0 (leaf) onward. -/
def strictlyDecreasing : List Backup → Bool
  | [] => true
  | [_] => true
  | a :: b :: rest => dtLtB b.timestamp a.timestamp && strictlyDecreasing (b :: rest)

/-! ### `strptime`/`strftime` round trip -/

theorem digitChar_isDigit {d : Nat} (h : d ≤ 9) :
    (Nat.digitChar d).isDigit = true := by
  interval_cases d <;> decide

theorem charToDigit_digitChar {d : Nat} (h : d ≤ 9) :
    charToDigit (Nat.digitChar d) = d := by
  interval_cases d <;> decide

theorem readDigits_pad4 {n : Nat} (h : n ≤ 9999) (rest : List Char) :
    readDigits 4 (pad4 n ++ rest) = some (n, rest) := by
  have h1 : n / 1000 ≤ 9 := by omega
  have h2 : n / 100 % 10 ≤ 9 := by omega
  have h3 : n / 10 % 10 ≤ 9 := by omega
  have h4 : n % 10 ≤ 9 := by omega
  simp only [pad4, List.cons_append, List.nil_append, readDigits, readDigitsAux,
    digitChar_isDigit h1, digitChar_isDigit h2, digitChar_isDigit h3, digitChar_isDigit h4,
    charToDigit_digitChar h1, charToDigit_digitChar h2, charToDigit_digitChar h3,
    charToDigit_digitChar h4, if_true]
  congr 1
  congr 1
  omega

theorem readDigits_pad2 {n : Nat} (h : n ≤ 99) (rest : List Char) :
    readDigits 2 (pad2 n ++ rest) = some (n, rest) := by
  have h1 : n / 10 ≤ 9 := by omega
  have h2 : n % 10 ≤ 9 := by omega
  simp only [pad2, List.cons_append, List.nil_append, readDigits, readDigitsAux,
    digitChar_isDigit h1, digitChar_isDigit h2,
    charToDigit_digitChar h1, charToDigit_digitChar h2, if_true]
  congr 1
  congr 1
  omega

theorem readDigits_pad2_nil {n : Nat} (h : n ≤ 99) :
    readDigits 2 (pad2 n) = some (n, []) := by
  have := readDigits_pad2 h []
  simpa using this

theorem daysInMonth_le_31 (y m : Nat) : daysInMonth y m ≤ 31 := by
  unfold daysInMonth
  split <;> [split <;> omega; split <;> omega]

/-- Formatting a valid datetime with `ts_format` and parsing it back is the
identity: the padded groups are re-read exactly and the validity check
passes. -/
theorem strptime_strftime {t : Datetime} (h : t.Valid) :
    strptimeTs (strftimeTs t) = some t := by
  obtain ⟨y, mo, d, hh, mi, s⟩ := t
  have hb := h
  unfold Datetime.Valid at hb
  simp only [validDT, Bool.and_eq_true, decide_eq_true_eq] at hb
  obtain ⟨⟨⟨⟨⟨⟨⟨⟨hy1, hy⟩, hmo1⟩, hmo2⟩, hd1⟩, hdm⟩, hhh1⟩, hmi1⟩, hs1⟩ := hb
  have hd31 : d ≤ 31 := le_trans hdm (daysInMonth_le_31 y mo)
  have hmo : mo ≤ 99 := by omega
  have hd : d ≤ 99 := by omega
  have hhh : hh ≤ 99 := by omega
  have hmi : mi ≤ 99 := by omega
  have hs : s ≤ 99 := by omega
  have hvb : validDT y mo d hh mi s = true := h
  simp [strftimeTs, strptimeTs, readDigits_pad4 hy, readDigits_pad2 hmo,
    readDigits_pad2 hd, readDigits_pad2 hhh, readDigits_pad2 hmi,
    readDigits_pad2_nil hs, expectChar, hvb]

/-! ### Claim C2: path codec round trip -/

/-- A concrete strictly-decreasing, valid two-element chain (leaf first). -/
def c2Chain : List Backup :=
  [{ timestamp := ⟨2021, 1, 2, 3, 4, 5⟩ }, { timestamp := ⟨2020, 1, 1, 0, 0, 0⟩ }]

/-- C2 counterexample: for the two-element chain `c2Chain` (non-empty,
strictly decreasing timestamps, all valid), the claimed round trip
`path_to_backup (backup_to_path C) (parentOf C) == C` fails: the encoded
path has two components, so `strptime` on the whole path string raises
(`none`), instead of returning the chain. -/
theorem c2_full_path_roundtrip_fails :
    (c2Chain ≠ [] ∧ strictlyDecreasing c2Chain = true ∧
      ∀ b ∈ c2Chain, b.timestamp.Valid) ∧
    path_to_backup (backup_to_path c2Chain) (some c2Chain.tail) = none ∧
    path_to_backup (backup_to_path c2Chain) (some c2Chain.tail) ≠ some c2Chain := by
  decide

/-- C2 (amended): for every non-empty chain `C` with strictly decreasing,
valid timestamps, the round trip holds when the codec is fed the leaf
component only (as the tree scanner does, one path component per nesting
level): `path_to_backup (backup_to_path (C.take 1)) (parentOf C) = C`.
For chains of length 1 this is exactly the original claim. -/
theorem c2_roundtrip_leaf (C : List Backup) (hne : C ≠ [])
    (hdec : strictlyDecreasing C = true)
    (hval : ∀ b ∈ C, b.timestamp.Valid) :
    path_to_backup (backup_to_path (C.take 1)) (some C.tail) = some C := by
  match C, hne with
  | b :: rest, _ =>
    have hv : b.timestamp.Valid := hval b (List.mem_cons_self b rest)
    show path_to_backup (backup_to_path [b]) (some rest) = some (b :: rest)
    have h1 : backup_to_path [b] = strftimeStr b.timestamp := rfl
    rw [h1]
    simp [path_to_backup, strptimeStr, strftimeStr, strptime_strftime hv]

/-- Witness for `c2_roundtrip_leaf` at the concrete chain `c2Chain`. -/
theorem c2_roundtrip_leaf_witness :
    c2Chain ≠ [] ∧ strictlyDecreasing c2Chain = true ∧
      (∀ b ∈ c2Chain, b.timestamp.Valid) ∧
      path_to_backup (backup_to_path (c2Chain.take 1)) (some c2Chain.tail) =
        some c2Chain :=
  ⟨by decide, by decide, by decide,
    c2_roundtrip_leaf c2Chain (by decide) (by decide) (by decide)⟩

/-! ### Label validation (`validate_backup_label`) -/

/-- Embedding of `BackupLabel = namedtuple("BackupLabel", ["part1", "part2"])`. -/
structure BackupLabel where
  part1 : String
  part2 : String
deriving DecidableEq, Repr

/-- The two `click.BadParameter` errors of `validate_backup_label`,
distinguished by their message ("label needs to be in format text1/text2"
vs "label contains invalid characters"). -/
inductive LabelError where
  | invalidFormat
  | invalidCharacters
deriving DecidableEq, Repr

/-- Split a character list on `/`. -/
def splitSlashAux : List Char → List Char → List (List Char)
  | [], cur => [cur.reverse]
  | c :: rest, cur =>
    if c = '/' then cur.reverse :: splitSlashAux rest []
    else splitSlashAux rest (c :: cur)

/-- `PurePath(s).parts` for POSIX paths: empty and `"."` components vanish,
and an absolute path contributes a leading `"/"` part. -/
def purePathParts (s : String) : List String :=
  let comps := ((splitSlashAux s.data []).map String.mk).filter
    (fun c => decide (c ≠ "" ∧ c ≠ "."))
  if s.data.head? = some '/' then "/" :: comps else comps

/-- Membership in the character class `[0-9a-zA-Z_-]`. -/
def isLabelChar (c : Char) : Bool :=
  c.isDigit || c.isLower || c.isUpper || c == '_' || c == '-'

/-- Truthiness of `re.match("[0-9a-zA-Z_-]+", s)`: `re.match` anchors at
the start only, so the match object is non-`None` exactly when the first
character of `s` is in the class; trailing characters are never examined. -/
def reMatchesAtStart (s : String) : Bool :=
  match s.data with
  | c :: _ => isLabelChar c
  | [] => false

instance {ε α : Type} [DecidableEq ε] [DecidableEq α] :
    DecidableEq (Except ε α)
  | .error e, .error f =>
    if h : e = f then .isTrue (h ▸ rfl)
    else .isFalse fun hc => h (by injection hc)
  | .error _, .ok _ => .isFalse fun hc => Except.noConfusion hc
  | .ok _, .error _ => .isFalse fun hc => Except.noConfusion hc
  | .ok a, .ok b =>
    if h : a = b then .isTrue (h ▸ rfl)
    else .isFalse fun hc => h (by injection hc)

/-- `validate_backup_label` for a provided string value: exactly two
`PurePath` parts or `BadParameter` ("format"), every part passing
`re.match("[0-9a-zA-Z_-]+", ...)` or `BadParameter` ("characters"), else
`BackupLabel(*parts)`.  (The source checks `len(parts) != 2` first and
then `all(...)`; for two-part inputs the match below is the same test.) -/
def validate_backup_label (value : String) : Except LabelError BackupLabel :=
  match purePathParts value with
  | [p1, p2] =>
    if reMatchesAtStart p1 && reMatchesAtStart p2 then .ok ⟨p1, p2⟩
    else .error .invalidCharacters
  | _ => .error .invalidFormat

/-- C6 counterexample: `"a!/b"` is NOT rejected with
`InvalidLabelCharacters`; `re.match` succeeds on `"a!"` because its first
character is in the class, so the label is accepted as `("a!", "b")`. -/
theorem c6_label_bang_accepted :
    validate_backup_label "a!/b" ≠ .error .invalidCharacters ∧
    validate_backup_label "a!/b" = .ok ⟨"a!", "b"⟩ := by
  decide

/-- C6 (amended): `"a/b"` is accepted as `(a, b)`; `"a"` and `"a/b/c"` are
rejected with `InvalidLabelFormat`; `"a!/b"` is accepted as `("a!", "b")`
(trailing characters outside the class are tolerated); a component whose
FIRST character is outside the class, such as in `"!a/b"`, is rejected
with `InvalidLabelCharacters`. -/
theorem c6_label_examples :
    validate_backup_label "a/b" = .ok ⟨"a", "b"⟩ ∧
    validate_backup_label "a" = .error .invalidFormat ∧
    validate_backup_label "a/b/c" = .error .invalidFormat ∧
    validate_backup_label "a!/b" = .ok ⟨"a!", "b"⟩ ∧
    validate_backup_label "!a/b" = .error .invalidCharacters := by
  decide

/-- C7: for a value with exactly two parts, `validate_backup_label` fails
with `InvalidLabelCharacters` if and only if some component's match of
`[0-9a-zA-Z_-]+` fails at its start; whenever both components begin with a
class character the label is accepted — trailing characters outside the
class (as in `"a!"`) are never examined, hence never rejected. -/
theorem c7_invalid_chars_iff (value p1 p2 : String)
    (hparts : purePathParts value = [p1, p2]) :
    (validate_backup_label value = .error .invalidCharacters ↔
      ¬(reMatchesAtStart p1 = true ∧ reMatchesAtStart p2 = true)) ∧
    (reMatchesAtStart p1 = true → reMatchesAtStart p2 = true →
      validate_backup_label value = .ok ⟨p1, p2⟩) := by
  unfold validate_backup_label
  rw [hparts]
  cases hb1 : reMatchesAtStart p1 <;> cases hb2 : reMatchesAtStart p2 <;>
    simp [hb1, hb2]

/-- Witness for `c7_invalid_chars_iff` at the concrete value `"a!/b"`. -/
theorem c7_invalid_chars_iff_witness :
    purePathParts "a!/b" = ["a!", "b"] ∧
    ((validate_backup_label "a!/b" = .error .invalidCharacters ↔
        ¬(reMatchesAtStart "a!" = true ∧ reMatchesAtStart "b" = true)) ∧
      (reMatchesAtStart "a!" = true → reMatchesAtStart "b" = true →
        validate_backup_label "a!/b" = .ok ⟨"a!", "b"⟩)) :=
  ⟨by decide, c7_invalid_chars_iff "a!/b" "a!" "b" (by decide)⟩

/-! ### Rotation policy and backup creation (`cmd_make`) -/

/-- `latest_backup`: drop chains whose length differs from `level`, take the
first remaining one (`itertools.dropwhile` + `next`, `StopIteration`
mapped to `None`). -/
def latest_backup (backups : List (List Backup)) (level : Nat) :
    Option (List Backup) :=
  match backups.dropWhile (fun x => x.length != level) with
  | [] => none
  | x :: _ => some x

/-- The `--level` choice `'g'`/`'f'`/`'s'`. -/
inductive BackupLevel where
  | g
  | f
  | s
deriving DecidableEq, Repr

/-- `'gfs'.index(level)`. -/
def BackupLevel.num : BackupLevel → Nat
  | .g => 0
  | .f => 1
  | .s => 2

/-- The inner helper `ff` of `cmd_make`: look up the latest backup of the
given level and echo an informational notice when there is none. -/
def ffNotice (all_backups : List (List Backup)) (level : Nat) :
    Option (List Backup) × List String :=
  match latest_backup all_backups level with
  | none => (none, ["No backups at level " ++ toString level ++ " found."])
  | some p => (some p, [])

/-- `make_dar_create_command`: fixed argument shape, with `--ref` appended
exactly when a reference basename is present. -/
def make_dar_create_command (config_path basename_path : String)
    (reference_basename_path : Option String) : List String :=
  ["dar", "-N", "-c", basename_path, "--batch", config_path] ++
    (match reference_basename_path with
      | some r => ["--ref", r]
      | none => [])

/-- `config.root / label.part1 / label.part2` (variable `root` in
`cmd_make`). -/
def labelRoot (config_root : String) (label : BackupLabel) : String :=
  pjoin (pjoin config_root label.part1) label.part2

/-- The pure content of one `cmd_make` invocation before the archiver runs:
the new chain, the echoed messages, the destination `_data` path, the
optional reference basename path and the archiver command line. -/
structure MakePlan where
  backup : List Backup
  messages : List String
  target_path : String
  reference_basename_path : Option String
  command : List String
deriving Repr

/-- Embedding of `cmd_make` (lines 211-266): the rotation decision and path
computations, parameterised by the scan result `all_backups`
(`list_backups(root)` in the source), the current time `now`
(`datetime.datetime.now()`) and the staging directory `tmpdir`
(`tempfile.mkdtemp(dir=workdir)`).  `click.style` colouring of the first
echo is omitted. -/
def cmd_make_plan (config_root config_dir tmpdir : String)
    (label : BackupLabel) (level : BackupLevel) (now : Datetime)
    (all_backups : List (List Backup)) : MakePlan :=
  let msgs0 := if level = .g then ["Normal backup."] else ["Differential backup."]
  let backup0 : List Backup := [{ timestamp := now }]
  let root := labelRoot config_root label
  let step :=
    if level.num > 0 then
      let pg := ffNotice all_backups 1
      let pf := ffNotice all_backups 2
      match pg.1 with
      | none =>
        (backup0, pg.2 ++ pf.2 ++ ["No backups found - will make a regular backup."])
      | some g =>
        let parent :=
          match pf.1 with
          | none => g
          | some f =>
            match f.head?, g.head? with
            | some fb, some gb => if dtGeB fb.timestamp gb.timestamp then f else g
            | _, _ => g
        (backup0 ++ parent, pg.2 ++ pf.2)
    else (backup0, [])
  let backup := step.1
  let target_path := pjoin (pjoin root (backup_to_path backup)) data_dir_name
  let reference_basename_path :=
    if backup.length > 1 then
      some (pjoin (pjoin (pjoin root (backup_to_path (backup.drop 1)))
        data_dir_name) (backup_to_path ((backup.drop 1).take 1)))
    else none
  let config_path := pjoin config_dir (label.part1 ++ "-" ++ label.part2 ++ ".dcf")
  let basename_path := pjoin tmpdir (backup_to_path (backup.take 1))
  { backup := backup
    messages := msgs0 ++ step.2 ++ ["Create backup: " ++ backup_to_path backup]
    target_path := target_path
    reference_basename_path := reference_basename_path
    command := make_dar_create_command config_path basename_path
      reference_basename_path }

/-! ### The commit step of `cmd_make` (`try`/`finally`, claim C1) -/

/-- Exit status of the external archiver invocation. -/
inductive DarResult where
  | exitZero
  | exitNonzero
deriving DecidableEq, Repr

/-- The filesystem facts claim C1 is about: whether the destination
directory (`<root>/<label>/<chain>/_data`) exists and whether the staging
directory is still sitting in the work directory. -/
structure FsState where
  destExists : Bool
  stagingInWorkdir : Bool
deriving DecidableEq, Repr

/-- Result of running the guarded block: completed normally, or a
`subprocess.CalledProcessError` is propagating. -/
inductive RunOutcome where
  | completed (s : FsState)
  | raisedCalledProcessError (s : FsState)
deriving DecidableEq, Repr

/-- The filesystem state carried by an outcome. -/
def RunOutcome.state : RunOutcome → FsState
  | .completed s => s
  | .raisedCalledProcessError s => s

/-- Python `try`/`finally` semantics: the `finally` suite runs on the
normal path and on the exceptional path alike, and a propagating exception
keeps propagating afterwards. -/
def pyTryFinally (body : FsState → RunOutcome) (cleanup : FsState → FsState)
    (s : FsState) : RunOutcome :=
  match body s with
  | .completed s' => .completed (cleanup s')
  | .raisedCalledProcessError s' => .raisedCalledProcessError (cleanup s')

/-- `run_dar`: `subprocess.check_call` raises on a nonzero exit status. -/
def run_dar_model (result : DarResult) (s : FsState) : RunOutcome :=
  match result with
  | .exitZero => .completed s
  | .exitNonzero => .raisedCalledProcessError s

/-- Lines 267-275 of `cmd_make`: `try:` log (dry run) or `run_dar`;
`finally: if not dry_run: target_path.parent.mkdir(...);
backup_dir.rename(target_path)`.  The `mkdir` + `rename` create the
destination directory and move the staging directory out of the work
directory. -/
def cmd_make_commit (dry_run : Bool) (result : DarResult) (s : FsState) :
    RunOutcome :=
  pyTryFinally
    (fun s => if dry_run then .completed s else run_dar_model result s)
    (fun s => if dry_run then s
      else { destExists := true, stagingInWorkdir := false })
    s

/-- C1 counterexample: with dry-run off and the archiver failing, the
destination directory IS created and the staging directory IS renamed into
place — the `finally:` block runs the `mkdir` + `rename` on the
exceptional path too, contradicting the claim that the destination is
never created and the staging directory is left in the work directory. -/
theorem c1_dest_created_on_failure :
    (cmd_make_commit false .exitNonzero ⟨false, true⟩).state.destExists = true ∧
    (cmd_make_commit false .exitNonzero ⟨false, true⟩).state.stagingInWorkdir
      = false ∧
    cmd_make_commit false .exitNonzero ⟨false, true⟩ =
      .raisedCalledProcessError ⟨true, false⟩ := by
  decide

/-- C1 (amended): with dry-run off the destination directory is created
and the staging directory renamed into place UNCONDITIONALLY — the commit
runs in a `finally:` block, on success and on archiver failure alike; the
`CalledProcessError` still propagates (after the rename) exactly when the
archiver exited nonzero. -/
theorem c1_commit_unconditional (result : DarResult) :
    (cmd_make_commit false result ⟨false, true⟩).state = ⟨true, false⟩ ∧
    (cmd_make_commit false result ⟨false, true⟩ =
        .raisedCalledProcessError ⟨true, false⟩ ↔ result = .exitNonzero) := by
  cases result <;> simp [cmd_make_commit, pyTryFinally, run_dar_model,
    RunOutcome.state]

/-- `backup_to_path` of a singleton chain is the leaf timestamp string. -/
theorem backup_to_path_singleton (b : Backup) :
    backup_to_path [b] = strftimeStr b.timestamp := rfl

/-- C3: requesting extension (level hint not `'g'`), with a most-recent
length-1 chain of leaf `T0` and a most-recent length-2 chain of leaf `T1`
in the scanned list: if `T1 >= T0` the length-2 chain becomes the parent
and the new chain has length 3; otherwise the length-1 chain becomes the
parent and the new chain has length 2. -/
theorem c3_rotation_parent_choice (config_root config_dir tmpdir : String)
    (label : BackupLabel) (level : BackupLevel) (now T0 T1 : Datetime)
    (all_backups : List (List Backup)) (fparent : List Backup)
    (hlev : level ≠ .g)
    (hg : latest_backup all_backups 1 = some [{ timestamp := T0 }])
    (hf : latest_backup all_backups 2 = some ({ timestamp := T1 } :: fparent))
    (hflen : ({ timestamp := T1 } :: fparent).length = 2) :
    (dtGeB T1 T0 = true →
      (cmd_make_plan config_root config_dir tmpdir label level now
          all_backups).backup =
        { timestamp := now } :: { timestamp := T1 } :: fparent ∧
      (cmd_make_plan config_root config_dir tmpdir label level now
          all_backups).backup.length = 3) ∧
    (dtGeB T1 T0 = false →
      (cmd_make_plan config_root config_dir tmpdir label level now
          all_backups).backup =
        [{ timestamp := now }, { timestamp := T0 }] ∧
      (cmd_make_plan config_root config_dir tmpdir label level now
          all_backups).backup.length = 2) := by
  have hfl : fparent.length = 1 := by simpa using hflen
  cases level with
  | g => exact absurd rfl hlev
  | f =>
    constructor <;> intro hge <;>
      simp [cmd_make_plan, ffNotice, hg, hf, BackupLevel.num, hge, hfl]
  | s =>
    constructor <;> intro hge <;>
      simp [cmd_make_plan, ffNotice, hg, hf, BackupLevel.num, hge, hfl]

/-- Witness for `c3_rotation_parent_choice` at a concrete scan list holding
a length-1 chain (leaf 2021-01-01) and a length-2 chain (leaf 2022-02-02,
root 2020-06-06). -/
theorem c3_rotation_parent_choice_witness :
    (BackupLevel.s ≠ BackupLevel.g ∧
      latest_backup [[{ timestamp := ⟨2021, 1, 1, 0, 0, 0⟩ }],
          [{ timestamp := ⟨2022, 2, 2, 0, 0, 0⟩ },
            { timestamp := ⟨2020, 6, 6, 0, 0, 0⟩ }]] 1 =
        some [{ timestamp := ⟨2021, 1, 1, 0, 0, 0⟩ }] ∧
      latest_backup [[{ timestamp := ⟨2021, 1, 1, 0, 0, 0⟩ }],
          [{ timestamp := ⟨2022, 2, 2, 0, 0, 0⟩ },
            { timestamp := ⟨2020, 6, 6, 0, 0, 0⟩ }]] 2 =
        some ({ timestamp := ⟨2022, 2, 2, 0, 0, 0⟩ } ::
          [{ timestamp := ⟨2020, 6, 6, 0, 0, 0⟩ }])) ∧
    (dtGeB ⟨2022, 2, 2, 0, 0, 0⟩ ⟨2021, 1, 1, 0, 0, 0⟩ = true →
      (cmd_make_plan "/backup" "/etc/backup" "/backup/.workdir/tmp0"
          ⟨"host", "etc"⟩ .s ⟨2023, 3, 3, 0, 0, 0⟩
          [[{ timestamp := ⟨2021, 1, 1, 0, 0, 0⟩ }],
            [{ timestamp := ⟨2022, 2, 2, 0, 0, 0⟩ },
              { timestamp := ⟨2020, 6, 6, 0, 0, 0⟩ }]]).backup =
        { timestamp := ⟨2023, 3, 3, 0, 0, 0⟩ } ::
          { timestamp := ⟨2022, 2, 2, 0, 0, 0⟩ } ::
            [{ timestamp := ⟨2020, 6, 6, 0, 0, 0⟩ }] ∧
      (cmd_make_plan "/backup" "/etc/backup" "/backup/.workdir/tmp0"
          ⟨"host", "etc"⟩ .s ⟨2023, 3, 3, 0, 0, 0⟩
          [[{ timestamp := ⟨2021, 1, 1, 0, 0, 0⟩ }],
            [{ timestamp := ⟨2022, 2, 2, 0, 0, 0⟩ },
              { timestamp := ⟨2020, 6, 6, 0, 0, 0⟩ }]]).backup.length = 3) :=
  ⟨⟨by decide, by decide, by decide⟩,
    (c3_rotation_parent_choice "/backup" "/etc/backup" "/backup/.workdir/tmp0"
      ⟨"host", "etc"⟩ .s ⟨2023, 3, 3, 0, 0, 0⟩ ⟨2021, 1, 1, 0, 0, 0⟩
      ⟨2022, 2, 2, 0, 0, 0⟩
      [[{ timestamp := ⟨2021, 1, 1, 0, 0, 0⟩ }],
        [{ timestamp := ⟨2022, 2, 2, 0, 0, 0⟩ },
          { timestamp := ⟨2020, 6, 6, 0, 0, 0⟩ }]]
      [{ timestamp := ⟨2020, 6, 6, 0, 0, 0⟩ }]
      (by decide) (by decide) (by decide) (by decide)).1⟩

/-- C4: requesting extension when no length-1 chain exists: the plan falls
back to a fresh length-1 chain with no parent (whatever other chains
exist and whichever of `'f'`/`'s'` was requested), and the informational
notices are echoed; no error is raised (the plan is total). -/
theorem notice_level_one :
    "No backups at level " ++ toString (1 : Nat) ++ " found." =
      "No backups at level 1 found." := by
  decide

theorem c4_no_full_fresh_chain (config_root config_dir tmpdir : String)
    (label : BackupLabel) (level : BackupLevel) (now : Datetime)
    (all_backups : List (List Backup))
    (hlev : level ≠ .g)
    (hg : latest_backup all_backups 1 = none) :
    (cmd_make_plan config_root config_dir tmpdir label level now
        all_backups).backup = [{ timestamp := now }] ∧
    "No backups found - will make a regular backup." ∈
      (cmd_make_plan config_root config_dir tmpdir label level now
        all_backups).messages ∧
    "No backups at level 1 found." ∈
      (cmd_make_plan config_root config_dir tmpdir label level now
        all_backups).messages := by
  cases level with
  | g => exact absurd rfl hlev
  | f =>
    cases hf2 : latest_backup all_backups 2 <;>
      simp [cmd_make_plan, ffNotice, hg, hf2, BackupLevel.num,
        notice_level_one]
  | s =>
    cases hf2 : latest_backup all_backups 2 <;>
      simp [cmd_make_plan, ffNotice, hg, hf2, BackupLevel.num,
        notice_level_one]

/-- Witness for `c4_no_full_fresh_chain`: an empty scan list (no chains at
all), level `'s'`. -/
theorem c4_no_full_fresh_chain_witness :
    (BackupLevel.s ≠ BackupLevel.g ∧ latest_backup [] 1 = none) ∧
    (cmd_make_plan "/backup" "/etc/backup" "/backup/.workdir/tmp0"
        ⟨"host", "etc"⟩ .s ⟨2023, 3, 3, 0, 0, 0⟩ []).backup =
      [{ timestamp := ⟨2023, 3, 3, 0, 0, 0⟩ }] :=
  ⟨⟨by decide, by decide⟩,
    (c4_no_full_fresh_chain "/backup" "/etc/backup" "/backup/.workdir/tmp0"
      ⟨"host", "etc"⟩ .s ⟨2023, 3, 3, 0, 0, 0⟩ [] (by decide) (by decide)).1⟩

/-- C10: the reference archive basename passed to the archiver.  When the
new chain has a parent (`len(backup) > 1`), the `--ref` argument is
`root / backup_to_path(parent chain) / '_data' / <parent's leaf timestamp
string>` — the base archive lives in the parent's `_data` directory under
the parent's own leaf timestamp (`backup[1:2]`); with no parent, no
reference path is passed and the command carries no `--ref`. -/
theorem c10_reference_basename (config_root config_dir tmpdir : String)
    (label : BackupLabel) (level : BackupLevel) (now : Datetime)
    (all_backups : List (List Backup)) :
    (∀ b0 p0 rest,
      (cmd_make_plan config_root config_dir tmpdir label level now
          all_backups).backup = b0 :: p0 :: rest →
      (cmd_make_plan config_root config_dir tmpdir label level now
          all_backups).reference_basename_path =
        some (pjoin (pjoin (pjoin (labelRoot config_root label)
          (backup_to_path (p0 :: rest))) data_dir_name)
          (strftimeStr p0.timestamp)) ∧
      (cmd_make_plan config_root config_dir tmpdir label level now
          all_backups).command =
        ["dar", "-N", "-c", pjoin tmpdir (strftimeStr b0.timestamp),
          "--batch",
          pjoin config_dir (label.part1 ++ "-" ++ label.part2 ++ ".dcf"),
          "--ref",
          pjoin (pjoin (pjoin (labelRoot config_root label)
            (backup_to_path (p0 :: rest))) data_dir_name)
            (strftimeStr p0.timestamp)]) ∧
    (∀ b0,
      (cmd_make_plan config_root config_dir tmpdir label level now
          all_backups).backup = [b0] →
      (cmd_make_plan config_root config_dir tmpdir label level now
          all_backups).reference_basename_path = none ∧
      (cmd_make_plan config_root config_dir tmpdir label level now
          all_backups).command =
        ["dar", "-N", "-c", pjoin tmpdir (strftimeStr b0.timestamp),
          "--batch",
          pjoin config_dir (label.part1 ++ "-" ++ label.part2 ++ ".dcf")]) := by
  have href : (cmd_make_plan config_root config_dir tmpdir label level now
      all_backups).reference_basename_path =
    (if (cmd_make_plan config_root config_dir tmpdir label level now
        all_backups).backup.length > 1 then
      some (pjoin (pjoin (pjoin (labelRoot config_root label)
        (backup_to_path ((cmd_make_plan config_root config_dir tmpdir label
          level now all_backups).backup.drop 1))) data_dir_name)
        (backup_to_path (((cmd_make_plan config_root config_dir tmpdir label
          level now all_backups).backup.drop 1).take 1)))
    else none) := rfl
  have hcmd : (cmd_make_plan config_root config_dir tmpdir label level now
      all_backups).command =
    make_dar_create_command
      (pjoin config_dir (label.part1 ++ "-" ++ label.part2 ++ ".dcf"))
      (pjoin tmpdir (backup_to_path ((cmd_make_plan config_root config_dir
        tmpdir label level now all_backups).backup.take 1)))
      (cmd_make_plan config_root config_dir tmpdir label level now
        all_backups).reference_basename_path := rfl
  constructor
  · intro b0 p0 rest hb
    rw [hcmd, href, hb]
    simp [make_dar_create_command, backup_to_path_singleton]
  · intro b0 hb
    rw [hcmd, href, hb]
    simp [make_dar_create_command, backup_to_path_singleton]

/-- Witness for `c10_reference_basename`: a concrete plan extending a
single full backup (leaf 2021-01-01), whose new chain has length 2. -/
theorem c10_reference_basename_witness :
    ((cmd_make_plan "/backup" "/etc/backup" "/backup/.workdir/tmp0"
        ⟨"host", "etc"⟩ .f ⟨2023, 3, 3, 0, 0, 0⟩
        [[{ timestamp := ⟨2021, 1, 1, 0, 0, 0⟩ }]]).backup =
      { timestamp := ⟨2023, 3, 3, 0, 0, 0⟩ } ::
        { timestamp := ⟨2021, 1, 1, 0, 0, 0⟩ } :: []) ∧
    (cmd_make_plan "/backup" "/etc/backup" "/backup/.workdir/tmp0"
        ⟨"host", "etc"⟩ .f ⟨2023, 3, 3, 0, 0, 0⟩
        [[{ timestamp := ⟨2021, 1, 1, 0, 0, 0⟩ }]]).reference_basename_path =
      some (pjoin (pjoin (pjoin (labelRoot "/backup" ⟨"host", "etc"⟩)
        (backup_to_path [{ timestamp := ⟨2021, 1, 1, 0, 0, 0⟩ }]))
        data_dir_name)
        (strftimeStr ⟨2021, 1, 1, 0, 0, 0⟩)) ∧
    (cmd_make_plan "/backup" "/etc/backup" "/backup/.workdir/tmp0"
        ⟨"host", "etc"⟩ .f ⟨2023, 3, 3, 0, 0, 0⟩
        [[{ timestamp := ⟨2021, 1, 1, 0, 0, 0⟩ }]]).command =
      ["dar", "-N", "-c",
        pjoin "/backup/.workdir/tmp0" (strftimeStr ⟨2023, 3, 3, 0, 0, 0⟩),
        "--batch", pjoin "/etc/backup" ("host" ++ "-" ++ "etc" ++ ".dcf"),
        "--ref",
        pjoin (pjoin (pjoin (labelRoot "/backup" ⟨"host", "etc"⟩)
          (backup_to_path [{ timestamp := ⟨2021, 1, 1, 0, 0, 0⟩ }]))
          data_dir_name)
          (strftimeStr ⟨2021, 1, 1, 0, 0, 0⟩)] :=
  ⟨by decide,
    ((c10_reference_basename "/backup" "/etc/backup" "/backup/.workdir/tmp0"
      ⟨"host", "etc"⟩ .f ⟨2023, 3, 3, 0, 0, 0⟩
      [[{ timestamp := ⟨2021, 1, 1, 0, 0, 0⟩ }]]).1
      { timestamp := ⟨2023, 3, 3, 0, 0, 0⟩ }
      { timestamp := ⟨2021, 1, 1, 0, 0, 0⟩ } [] (by decide)).1,
    ((c10_reference_basename "/backup" "/etc/backup" "/backup/.workdir/tmp0"
      ⟨"host", "etc"⟩ .f ⟨2023, 3, 3, 0, 0, 0⟩
      [[{ timestamp := ⟨2021, 1, 1, 0, 0, 0⟩ }]]).1
      { timestamp := ⟨2023, 3, 3, 0, 0, 0⟩ }
      { timestamp := ⟨2021, 1, 1, 0, 0, 0⟩ } [] (by decide)).2⟩

/-! ### Filesystem model and the tree scanner (`list_backups`)

A directory tree is a nested list of named entries.  `list_backups` walks
it: at each directory it enumerates the entries the OS hands back (`glob`
yields them in unspecified order — modelled by an `enum` oracle that may
permute each directory's entry list), keeps those matching the timestamp
glob that are directories containing a `_data` directory, converts each to
a chain with `path_to_backup`, recurses, and finally sorts all chains by
their `[b.timestamp for b in chain]` key, descending (`reverse=True`).
The source builds an intermediate `Node` tree and flattens it in preorder
(`invert`); the embedding emits the chains in the same preorder directly.
Recursion is gated by a fuel argument (`sizeOf` of the tree is always
enough); exhausted fuel yields `none`, like a parse error. -/

inductive FSEntry where
  | file
  | dir (entries : List (String × FSEntry))

mutual

/-- Number of nodes of a tree (an upper bound on its depth, used as fuel). -/
def FSEntry.size : FSEntry → Nat
  | .file => 1
  | .dir es => 1 + FSEntry.sizeL es

/-- Total node count of an entry list. -/
def FSEntry.sizeL : List (String × FSEntry) → Nat
  | [] => 0
  | p :: rest => FSEntry.size p.2 + FSEntry.sizeL rest

end

/-- `path.is_dir()`. -/
def FSEntry.isDir : FSEntry → Bool
  | .file => false
  | .dir _ => true

/-- Look a name up in a directory's entry list (real filesystems have at
most one entry per name). -/
def lookupEntry (entries : List (String × FSEntry)) (name : String) :
    Option FSEntry :=
  (entries.find? (fun p => p.1 == name)).map (fun p => p.2)

/-- `(path / data_dir_name).is_dir()`. -/
def FSEntry.hasDataDir : FSEntry → Bool
  | .file => false
  | .dir es =>
    match lookupEntry es data_dir_name with
    | some e => e.isDir
    | none => false

/-- The fixed glob `[0-9][0-9][0-9][0-9]-[0-9][0-9]-[0-9][0-9]_[0-9][0-9]:
[0-9][0-9]:[0-9][0-9]` (`glob_format`): exactly 19 characters, digits in
the digit slots and the literal separators in theirs. -/
def globTs (n : String) : Bool :=
  match n.data with
  | [y1, y2, y3, y4, s1, m1, m2, s2, d1, d2, s3, h1, h2, s4, i1, i2, s5,
      x1, x2] =>
    y1.isDigit && y2.isDigit && y3.isDigit && y4.isDigit && s1 == '-' &&
      m1.isDigit && m2.isDigit && s2 == '-' && d1.isDigit && d2.isDigit &&
      s3 == '_' && h1.isDigit && h2.isDigit && s4 == ':' && i1.isDigit &&
      i2.isDigit && s5 == ':' && x1.isDigit && x2.isDigit
  | _ => false

/-- The scanner's acceptance test for one entry: name matches the glob,
the entry is a directory, and it contains a `_data` directory. -/
def qualifies (n : String) (e : FSEntry) : Bool :=
  globTs n && e.isDir && e.hasDataDir

/-- Handle one globbed entry inside `one_level`'s loop: skip it unless it
qualifies; otherwise parse it into a chain (`path_to_backup`), recurse via
`child` into it, and emit the chain followed by its descendants' chains
(the preorder flattening `invert` produces), in front of the accumulated
chains of the later entries. -/
def collectStep
    (child : List String → List Backup → FSEntry → Option (List (List Backup)))
    (path : List String) (parent : List Backup)
    (p : String × FSEntry) (acc : Option (List (List Backup))) :
    Option (List (List Backup)) :=
  if qualifies p.1 p.2 then
    (path_to_backup p.1 (some parent)).bind fun backupChain =>
    (child (path ++ [p.1]) backupChain p.2).bind fun sub =>
    acc.map fun rest => backupChain :: (sub ++ rest)
  else acc

/-- `one_level` + `invert`: all chains of the subtree, in preorder, given
the chain `parent` of the enclosing directory. -/
def collectE
    (enum : List String → List (String × FSEntry) → List (String × FSEntry)) :
    Nat → List String → List Backup → FSEntry → Option (List (List Backup))
  | 0, _, _, _ => none
  | _ + 1, _, _, .file => some []
  | fuel + 1, path, parent, .dir es =>
    (enum path es).foldr (collectStep (collectE enum fuel) path parent)
      (some [])

/-- The chain's sort key: `[backup.timestamp for backup in backups]`. -/
def scanKey (chain : List Backup) : List Datetime :=
  chain.map Backup.timestamp

/-- Python tuple comparison of `(key, chain)` pairs as fed to `sorted`:
the key lists first, then the chains (namedtuples compare like tuples). -/
def pairCmp (p q : List Datetime × List Backup) : Ordering :=
  (cmpLex dtCmp p.1 q.1).then
    (cmpLex (fun a b => dtCmp a.timestamp b.timestamp) p.2 q.2)

/-- `a >= b` on the pairs: the order `sorted(..., reverse=True)` sorts by. -/
def pairGeB (p q : List Datetime × List Backup) : Bool :=
  match pairCmp p q with
  | .lt => false
  | _ => true

/-- The descending pair order `sorted(..., reverse=True)` sorts by, as a
decidable relation. -/
def pairGe (p q : List Datetime × List Backup) : Prop :=
  pairGeB p q = true

instance : DecidableRel pairGe := fun p q => by
  unfold pairGe; infer_instance

/-- `sorted(zip(keys, ret), reverse=True)` followed by taking `pair[1]`.
`pairGe` is total, transitive and antisymmetric (proved below), so every
sort produces the same list; insertion sort stands in for Python's stable
sort. -/
def scanSort (chains : List (List Backup)) : List (List Backup) :=
  (((chains.map scanKey).zip chains).insertionSort pairGe).map Prod.snd

/-- The identity enumeration: the OS hands entries back in stored order. -/
def idEnum : List String → List (String × FSEntry) → List (String × FSEntry) :=
  fun _ es => es

/-- `list_backups` under a chosen enumeration order. -/
def scanWith
    (enum : List String → List (String × FSEntry) → List (String × FSEntry))
    (t : FSEntry) : Option (List (List Backup)) :=
  (collectE enum (FSEntry.size t) [] [] t).map scanSort

/-- `list_backups(root_path)` on the modelled tree. -/
def list_backups (t : FSEntry) : Option (List (List Backup)) :=
  scanWith idEnum t

/-! ### Claim C8: one chain per qualifying node

`specPathsF` is the spec's description of which nodes produce chains,
written independently of the scanner: every directory node, at every
depth, all of whose path steps match the glob AND contain a `_data`
directory (so nothing below an excluded directory is ever listed). -/

/-- Modelled from the spec: the root-to-node name paths of all
leaf-or-internal backup nodes — every step matches the timestamp glob and
has a `_data` subdirectory; children of excluded directories do not
appear. -/
def specPathsF : Nat → FSEntry → List (List String)
  | 0, _ => []
  | _ + 1, .file => []
  | fuel + 1, .dir es =>
    es.flatMap fun p =>
      if qualifies p.1 p.2 then
        [p.1] :: (specPathsF fuel p.2).map (fun w => p.1 :: w)
      else []

/-- `specPathsF` with enough fuel for the whole tree. -/
def specPaths (t : FSEntry) : List (List String) :=
  specPathsF (FSEntry.size t) t

/-- The chain a node at the given root-to-node path carries: the parsed
timestamps, leaf (deepest) first.  (The `getD` default is never used on
paths the scanner accepted, since their names all parsed.) -/
def chainOfPath (pathNames : List String) : List Backup :=
  (pathNames.map fun n =>
    ({ timestamp := (strptimeStr n).getD ⟨1, 1, 1, 0, 0, 0⟩ } : Backup)).reverse

/-- All timestamp-globbed `_data`-carrying directory names that the scan
visits parse as valid timestamps (otherwise `strptime` raises and the
whole scan dies — spec §7 `ParseError`). -/
def scanSafeF : Nat → FSEntry → Bool
  | 0, _ => true
  | _ + 1, .file => true
  | fuel + 1, .dir es =>
    es.all fun p =>
      !(qualifies p.1 p.2) || ((strptimeStr p.1).isSome && scanSafeF fuel p.2)

/-- `scanSafeF` with enough fuel for the whole tree. -/
def scanSafe (t : FSEntry) : Bool :=
  scanSafeF (FSEntry.size t) t

theorem FSEntry.size_pos (t : FSEntry) : 1 ≤ t.size := by
  cases t <;> simp [FSEntry.size]

theorem chainOfPath_cons (n : String) (w : List String) (parent : List Backup) :
    chainOfPath (n :: w) ++ parent =
      chainOfPath w ++
        ({ timestamp := (strptimeStr n).getD ⟨1, 1, 1, 0, 0, 0⟩ } :: parent) := by
  simp [chainOfPath, List.append_assoc]

/-- With the stored enumeration order and no parse failures, the collected
chain list is exactly one chain per spec-qualifying node, in preorder:
the node's parsed path timestamps (leaf first) followed by the ambient
parent chain. -/
theorem collectE_eq_specPaths :
    ∀ (fuel : Nat) (t : FSEntry) (path : List String) (parent : List Backup),
      FSEntry.size t ≤ fuel → scanSafeF fuel t = true →
      collectE idEnum fuel path parent t =
        some ((specPathsF fuel t).map fun w => chainOfPath w ++ parent) := by
  intro fuel
  induction fuel with
  | zero =>
    intro t path parent hsz _
    exact absurd hsz (by have := FSEntry.size_pos t; omega)
  | succ fuel ih =>
    intro t path parent hsz hsafe
    cases t with
    | file => simp [collectE, specPathsF]
    | dir es =>
      have hszL : FSEntry.sizeL es ≤ fuel := by
        simp only [FSEntry.size] at hsz; omega
      have hsafeL :
          (es.all fun p =>
            !(qualifies p.1 p.2) ||
              ((strptimeStr p.1).isSome && scanSafeF fuel p.2)) = true := by
        simpa [scanSafeF] using hsafe
      have aux : ∀ (es2 : List (String × FSEntry)),
          FSEntry.sizeL es2 ≤ fuel →
          (es2.all fun p =>
            !(qualifies p.1 p.2) ||
              ((strptimeStr p.1).isSome && scanSafeF fuel p.2)) = true →
          ∀ (path2 : List String) (parent2 : List Backup),
          es2.foldr (collectStep (collectE idEnum fuel) path2 parent2)
              (some []) =
            some ((es2.flatMap fun p =>
              if qualifies p.1 p.2 then
                [p.1] :: (specPathsF fuel p.2).map (fun w => p.1 :: w)
              else []).map fun w => chainOfPath w ++ parent2) := by
        intro es2
        induction es2 with
        | nil => intro _ _ path2 parent2; simp
        | cons p rest ihr =>
          intro hsz2 hsafe2 path2 parent2
          have hszp : FSEntry.size p.2 ≤ fuel := by
            simp only [FSEntry.sizeL] at hsz2
            have := FSEntry.size_pos p.2
            omega
          have hszr : FSEntry.sizeL rest ≤ fuel := by
            simp only [FSEntry.sizeL] at hsz2
            have := FSEntry.size_pos p.2
            omega
          rw [List.all_cons, Bool.and_eq_true] at hsafe2
          have hrest := ihr hszr hsafe2.2 path2 parent2
          cases hq : qualifies p.1 p.2 with
          | false =>
            simp only [List.foldr_cons, hrest, collectStep, hq,
              Bool.false_eq_true, if_false, List.flatMap_cons]
            simp
          | true =>
            have hps : (strptimeStr p.1).isSome = true ∧
                scanSafeF fuel p.2 = true := by
              have := hsafe2.1
              rw [hq] at this
              simpa using this
            obtain ⟨ts, hts⟩ := Option.isSome_iff_exists.mp hps.1
            have hptb : path_to_backup p.1 (some parent2) =
                some ({ timestamp := ts } :: parent2) := by
              simp [path_to_backup, hts]
            have hsub := ih p.2 (path2 ++ [p.1])
              ({ timestamp := ts } :: parent2) hszp hps.2
            simp only [List.foldr_cons, collectStep, hq, if_true, hptb,
              hrest, hsub, Option.some_bind, List.flatMap_cons,
              List.map_append, List.map_cons, List.map_map, Option.map_some']
            have hhd : chainOfPath [p.1] ++ parent2 =
                { timestamp := ts } :: parent2 := by
              simp [chainOfPath, hts]
            have hmapf : ((fun w => chainOfPath w ++ parent2) ∘
                  fun w => p.1 :: w) =
                fun w => chainOfPath w ++ { timestamp := ts } :: parent2 := by
              funext w
              simp only [Function.comp_apply]
              rw [chainOfPath_cons, hts]
              rfl
            rw [hhd, hmapf]
            simp [List.cons_append]
      have hidl : idEnum path es = es := rfl
      calc collectE idEnum (fuel + 1) path parent (.dir es)
          = es.foldr (collectStep (collectE idEnum fuel) path parent)
              (some []) := by rw [collectE, hidl]
        _ = _ := by rw [aux es hszL hsafeL path parent]; rfl

theorem zip_scanKey (chains : List (List Backup)) :
    (chains.map scanKey).zip chains = chains.map fun c => (scanKey c, c) := by
  induction chains with
  | nil => rfl
  | cons c cs ih => simp [ih]

/-- The sort step permutes the collected chains (keeps exactly them). -/
theorem scanSort_perm (chains : List (List Backup)) :
    (scanSort chains).Perm chains := by
  unfold scanSort
  rw [zip_scanKey]
  have h3 : List.map (Prod.snd ∘ fun c => (scanKey c, c)) chains = chains := by
    induction chains with
    | nil => rfl
    | cons a l ihc => simpa using ihc
  have h2 := (List.perm_insertionSort pairGe
    (chains.map fun c => (scanKey c, c))).map Prod.snd
  rw [List.map_map, h3] at h2
  exact h2

/-- A tree whose single node matches the glob and has `_data` but is not a
valid calendar date (month 13). -/
def c8BadTree : FSEntry :=
  .dir [("2021-13-01_00:00:00", .dir [("_data", .dir [])])]

/-- C8 counterexample: `"2021-13-01_00:00:00"` matches the glob and has a
`_data` directory, so the claim demands exactly one chain for it; instead
`strptime` raises on month 13 and the whole scan dies without producing a
list (`none`), so the claim fails on this layout. -/
theorem c8_parse_error_aborts_scan :
    list_backups c8BadTree = none ∧
    specPaths c8BadTree = [["2021-13-01_00:00:00"]] := by
  decide

/-- C8 (amended): on every layout in which each visited glob-matching
`_data`-carrying directory name parses as a valid timestamp (`scanSafe` —
otherwise the scan raises `ParseError`, spec §7), `list_backups` returns
exactly one chain per qualifying directory node at every nesting depth
(internal nodes included), namely the parsed root-to-node timestamps leaf
first; directories failing the glob or `_data` condition are silently
excluded and nothing below them is listed. -/
theorem c8_one_chain_per_node (t : FSEntry) (hsafe : scanSafe t = true) :
    ∃ l, list_backups t = some l ∧
      l.Perm ((specPaths t).map chainOfPath) := by
  have h := collectE_eq_specPaths (FSEntry.size t) t [] []
    (le_refl _) hsafe
  refine ⟨scanSort ((specPathsF (FSEntry.size t) t).map
    fun w => chainOfPath w ++ []), ?_, ?_⟩
  · simp [list_backups, scanWith, h]
  · have hp := scanSort_perm ((specPathsF (FSEntry.size t) t).map
      fun w => chainOfPath w ++ [])
    simpa [specPaths] using hp

/-- A small mixed layout: one full backup with one child, one junk
directory without `_data`, one more recent full backup. -/
def sampleTree : FSEntry :=
  .dir [("2020-01-01_00:00:00", .dir [("_data", .dir []),
    ("2021-01-01_00:00:00", .dir [("_data", .dir [])])]),
    ("notabackup", .dir []),
    ("2022-05-05_10:20:30", .dir [("_data", .dir [])])]

/-- Witness for `c8_one_chain_per_node` at `sampleTree`. -/
theorem c8_one_chain_per_node_witness :
    scanSafe sampleTree = true ∧
    ∃ l, list_backups sampleTree = some l ∧
      l.Perm ((specPaths sampleTree).map chainOfPath) :=
  ⟨by decide, c8_one_chain_per_node sampleTree (by decide)⟩

/-! ### Claim C9: the strictly-decreasing chain invariant -/

/-- The nesting of the layout is chronological: along every visited
qualifying path, each directory's timestamp is strictly greater than its
enclosing backup's (`bound`). -/
def chronoF : Nat → Option Datetime → FSEntry → Bool
  | 0, _, _ => true
  | _ + 1, _, .file => true
  | fuel + 1, bound, .dir es =>
    es.all fun p =>
      !(qualifies p.1 p.2) ||
        (match strptimeStr p.1 with
         | none => true
         | some ts =>
           (match bound with
            | none => true
            | some b => dtLtB b ts) && chronoF fuel (some ts) p.2)

/-- `chronoF` with enough fuel for the whole tree, no outer bound. -/
def chronoNested (t : FSEntry) : Bool :=
  chronoF (FSEntry.size t) none t

theorem strictlyDecreasing_cons (ts : Datetime) (parent : List Backup)
    (hp : strictlyDecreasing parent = true)
    (hbd : ∀ p0 ∈ parent.head?, dtLtB p0.timestamp ts = true) :
    strictlyDecreasing ({ timestamp := ts } :: parent) = true := by
  cases parent with
  | nil => rfl
  | cons p0 rest =>
    have hb := hbd p0 rfl
    simp [strictlyDecreasing, hb, hp]

/-- Every chain the collection phase emits is strictly decreasing,
provided the ambient parent chain is and the subtree is chronologically
nested above the parent's leaf. -/
theorem collectE_chains_decreasing :
    ∀ (fuel : Nat) (t : FSEntry) (path : List String) (parent : List Backup)
      (l : List (List Backup)),
      chronoF fuel (parent.head?.map Backup.timestamp) t = true →
      strictlyDecreasing parent = true →
      collectE idEnum fuel path parent t = some l →
      ∀ c ∈ l, strictlyDecreasing c = true := by
  intro fuel
  induction fuel with
  | zero =>
    intro t path parent l _ _ hc
    exact absurd hc (by simp [collectE])
  | succ fuel ih =>
    intro t path parent l hch hpar hc
    cases t with
    | file =>
      simp only [collectE, Option.some_inj] at hc
      subst hc
      intro c hcc
      cases hcc
    | dir es =>
      have hchL :
          (es.all fun p =>
            !(qualifies p.1 p.2) ||
              (match strptimeStr p.1 with
               | none => true
               | some ts =>
                 (match parent.head?.map Backup.timestamp with
                  | none => true
                  | some b => dtLtB b ts) && chronoF fuel (some ts) p.2)) =
            true := by
        simpa [chronoF] using hch
      have hfold :
          es.foldr (collectStep (collectE idEnum fuel) path parent)
            (some []) = some l := by
        simpa [collectE, idEnum] using hc
      clear hc hch
      induction es generalizing l with
      | nil =>
        simp only [List.foldr_nil, Option.some_inj] at hfold
        subst hfold
        intro c hcc
        cases hcc
      | cons p rest ihr =>
        rw [List.all_cons, Bool.and_eq_true] at hchL
        rw [List.foldr_cons] at hfold
        cases hq : qualifies p.1 p.2 with
        | false =>
          rw [collectStep, hq] at hfold
          simp only [Bool.false_eq_true, if_false] at hfold
          exact ihr l hchL.2 hfold
        | true =>
          cases hpt : strptimeStr p.1 with
          | none =>
            simp [collectStep, hq, path_to_backup, hpt] at hfold
          | some ts =>
            have hcondp := hchL.1
            rw [hq, hpt] at hcondp
            simp only [Bool.not_true, Bool.false_or,
              Bool.and_eq_true] at hcondp
            have hdec : strictlyDecreasing ({ timestamp := ts } :: parent)
                = true := by
              apply strictlyDecreasing_cons ts parent hpar
              intro p0 hp0
              cases hh : parent.head? with
              | none => rw [hh] at hp0; cases hp0
              | some q0 =>
                rw [hh] at hp0
                cases hp0
                have hb := hcondp.1
                rw [hh] at hb
                simpa using hb
            cases hsub : collectE idEnum fuel (path ++ [p.1])
                ({ timestamp := ts } :: parent) p.2 with
            | none =>
              simp [collectStep, hq, path_to_backup, hpt, hsub] at hfold
            | some sub =>
              cases hacc : rest.foldr
                  (collectStep (collectE idEnum fuel) path parent)
                  (some []) with
              | none =>
                simp [collectStep, hq, path_to_backup, hpt, hsub,
                  hacc] at hfold
              | some restl =>
                simp only [collectStep, hq, if_true, path_to_backup, hpt,
                  Option.map_some', Option.getD_some, Option.some_bind,
                  hsub, hacc, Option.some_inj] at hfold
                subst hfold
                intro c hcc
                rcases List.mem_cons.mp hcc with hceq | hcm
                · subst hceq; exact hdec
                rcases List.mem_append.mp hcm with hcs | hcr
                · exact ih p.2 (path ++ [p.1])
                    ({ timestamp := ts } :: parent) sub
                    (by simpa using hcondp.2) hdec hsub c hcs
                · exact ihr restl hchL.2 hacc c hcr

/-- A layout the scanner accepts in which a child backup directory is
OLDER than its parent (2019 nested under 2020). -/
def c9BadTree : FSEntry :=
  .dir [("2020-01-01_00:00:00", .dir [("_data", .dir []),
    ("2019-01-01_00:00:00", .dir [("_data", .dir [])])])]

/-- C9 counterexample: the scanner accepts `c9BadTree` (returns a list,
no error) and produces the chain `[2019, 2020]`, whose timestamps are
NOT strictly decreasing from the leaf — the scanner never validates the
invariant, so the claim fails for this layout. -/
theorem c9_scanner_accepts_increasing_chain :
    list_backups c9BadTree =
      some [[{ timestamp := ⟨2020, 1, 1, 0, 0, 0⟩ }],
        [{ timestamp := ⟨2019, 1, 1, 0, 0, 0⟩ },
          { timestamp := ⟨2020, 1, 1, 0, 0, 0⟩ }]] ∧
    strictlyDecreasing [{ timestamp := ⟨2019, 1, 1, 0, 0, 0⟩ },
      { timestamp := ⟨2020, 1, 1, 0, 0, 0⟩ }] = false := by
  decide

/-- C9 (amended): every chain `list_backups` produces is strictly
decreasing from index 0 PROVIDED the directory layout is chronologically
nested (`chronoNested`): along every qualifying path each directory's
timestamp strictly exceeds its enclosing backup's.  The scanner itself
does not enforce this; layouts created by `cmd_make` satisfy it because a
child is always created after its parent. -/
theorem c9_chains_decreasing (t : FSEntry) (l : List (List Backup))
    (hch : chronoNested t = true) (hl : list_backups t = some l) :
    ∀ c ∈ l, strictlyDecreasing c = true := by
  obtain ⟨chains, hchains, hsort⟩ :
      ∃ chains, collectE idEnum (FSEntry.size t) [] [] t = some chains ∧
        l = scanSort chains := by
    cases hcc : collectE idEnum (FSEntry.size t) [] [] t with
    | none => rw [list_backups, scanWith, hcc] at hl; cases hl
    | some chains =>
      refine ⟨chains, rfl, ?_⟩
      rw [list_backups, scanWith, hcc] at hl
      simpa using hl.symm
  intro c hcmem
  have hmem : c ∈ chains := by
    rw [hsort] at hcmem
    exact (scanSort_perm chains).mem_iff.mp hcmem
  exact collectE_chains_decreasing (FSEntry.size t) t [] [] chains
    (by simpa [chronoNested] using hch) rfl hchains c hmem

/-- A chronologically nested layout (2021 under 2020). -/
def c9GoodTree : FSEntry :=
  .dir [("2020-01-01_00:00:00", .dir [("_data", .dir []),
    ("2021-01-01_00:00:00", .dir [("_data", .dir [])])])]

/-- Witness for `c9_chains_decreasing` at `c9GoodTree`. -/
theorem c9_chains_decreasing_witness :
    (chronoNested c9GoodTree = true ∧
      list_backups c9GoodTree =
        some [[{ timestamp := ⟨2021, 1, 1, 0, 0, 0⟩ },
            { timestamp := ⟨2020, 1, 1, 0, 0, 0⟩ }],
          [{ timestamp := ⟨2020, 1, 1, 0, 0, 0⟩ }]]) ∧
    ∀ c ∈ [[({ timestamp := ⟨2021, 1, 1, 0, 0, 0⟩ } : Backup),
        { timestamp := ⟨2020, 1, 1, 0, 0, 0⟩ }],
      [{ timestamp := ⟨2020, 1, 1, 0, 0, 0⟩ }]],
      strictlyDecreasing c = true :=
  ⟨⟨by decide, by decide⟩,
    c9_chains_decreasing c9GoodTree
      [[{ timestamp := ⟨2021, 1, 1, 0, 0, 0⟩ },
          { timestamp := ⟨2020, 1, 1, 0, 0, 0⟩ }],
        [{ timestamp := ⟨2020, 1, 1, 0, 0, 0⟩ }]]
      (by decide) (by decide)⟩

/-! ### Claim C5: sortedness and enumeration-order independence

The pair comparison `sorted` uses is a linear order (total, transitive,
antisymmetric), so the sorted list is unique: any two permutations of the
same chains sort to the same list. -/

/-- The three laws of a lawful three-way comparison: `eq` reflects
equality, swapping arguments swaps the verdict, and `lt` is transitive. -/
structure CmpLawful (c : α → α → Ordering) : Prop where
  eq_iff : ∀ a b, c a b = .eq ↔ a = b
  symm : ∀ a b, (c a b).swap = c b a
  lt_trans : ∀ a b d, c a b = .lt → c b d = .lt → c a d = .lt

theorem natCmp_lawful : CmpLawful natCmp := by
  constructor
  · intro a b
    unfold natCmp
    split_ifs <;> simp <;> omega
  · intro a b
    unfold natCmp
    split_ifs <;> first | rfl | omega
  · intro a b d h1 h2
    unfold natCmp at *
    split_ifs at * <;> first | rfl | omega

theorem Ordering.then_swap (o p : Ordering) :
    (o.then p).swap = o.swap.then p.swap := by
  cases o <;> rfl

theorem CmpLawful.ne_of_lt {c : α → α → Ordering} (hc : CmpLawful c)
    {a b : α} (h : c a b = .lt) : a ≠ b := by
  intro hab
  rw [hab, (hc.eq_iff b b).mpr rfl] at h
  cases h

theorem CmpLawful.ne_of_gt {c : α → α → Ordering} (hc : CmpLawful c)
    {a b : α} (h : c a b = .gt) : a ≠ b := by
  intro hab
  rw [hab, (hc.eq_iff b b).mpr rfl] at h
  cases h

theorem cmpLex_lawful (c : α → α → Ordering) (hc : CmpLawful c) :
    CmpLawful (cmpLex c) := by
  constructor
  · intro l1
    induction l1 with
    | nil => intro l2; cases l2 <;> simp [cmpLex]
    | cons a as ih =>
      intro l2
      cases l2 with
      | nil => simp [cmpLex]
      | cons b bs =>
        cases hv : c a b with
        | lt =>
          simp only [cmpLex, hv, Ordering.then]
          simp [hc.ne_of_lt hv]
        | gt =>
          simp only [cmpLex, hv, Ordering.then]
          simp [hc.ne_of_gt hv]
        | eq =>
          have hab : a = b := (hc.eq_iff a b).mp hv
          subst hab
          simp only [cmpLex, hv, Ordering.then]
          simp [ih bs]
  · intro l1
    induction l1 with
    | nil => intro l2; cases l2 <;> rfl
    | cons a as ih =>
      intro l2
      cases l2 with
      | nil => rfl
      | cons b bs => simp [cmpLex, Ordering.then_swap, hc.symm, ih bs]
  · intro l1
    induction l1 with
    | nil =>
      intro l2 l3 h1 h2
      cases l2 with
      | nil => exact absurd h1 (by simp [cmpLex])
      | cons b bs =>
        cases l3 with
        | nil => exact absurd h2 (by simp [cmpLex])
        | cons d ds => simp [cmpLex]
    | cons a as ih =>
      intro l2 l3 h1 h2
      cases l2 with
      | nil => exact absurd h1 (by simp [cmpLex])
      | cons b bs =>
        cases l3 with
        | nil => exact absurd h2 (by simp [cmpLex])
        | cons d ds =>
          cases hab : c a b with
          | gt => rw [cmpLex, hab] at h1; cases h1
          | lt =>
            cases hbd : c b d with
            | gt => rw [cmpLex, hbd] at h2; cases h2
            | lt =>
              rw [cmpLex, hc.lt_trans a b d hab hbd]
              rfl
            | eq =>
              have hbd2 : b = d := (hc.eq_iff b d).mp hbd
              subst hbd2
              rw [cmpLex, hab]
              rfl
          | eq =>
            have hab2 : a = b := (hc.eq_iff a b).mp hab
            subst hab2
            rw [cmpLex, hab] at h1
            cases hbd : c a d with
            | gt => rw [cmpLex, hbd] at h2; cases h2
            | lt => rw [cmpLex, hbd]; rfl
            | eq =>
              have hbd2 : a = d := (hc.eq_iff a d).mp hbd
              subst hbd2
              rw [cmpLex, hbd] at h2 ⊢
              simp only [Ordering.then] at h1 h2 ⊢
              exact ih bs ds h1 h2

theorem Datetime.fields_inj {a b : Datetime} (h : a.fields = b.fields) :
    a = b := by
  cases a
  cases b
  simp only [Datetime.fields, List.cons.injEq, and_true] at h
  obtain ⟨h1, h2, h3, h4, h5, h6⟩ := h
  subst h1 h2 h3 h4 h5 h6
  rfl

theorem dtCmp_lawful : CmpLawful dtCmp := by
  have hl := cmpLex_lawful natCmp natCmp_lawful
  constructor
  · intro a b
    rw [dtCmp, hl.eq_iff]
    exact ⟨fun h => Datetime.fields_inj h, fun h => by rw [h]⟩
  · intro a b
    exact hl.symm a.fields b.fields
  · intro a b d h1 h2
    exact hl.lt_trans a.fields b.fields d.fields h1 h2

theorem bkCmp_lawful :
    CmpLawful (fun a b : Backup => dtCmp a.timestamp b.timestamp) := by
  constructor
  · intro a b
    rw [dtCmp_lawful.eq_iff]
    cases a
    cases b
    simp
  · intro a b
    exact dtCmp_lawful.symm a.timestamp b.timestamp
  · intro a b d h1 h2
    exact dtCmp_lawful.lt_trans _ _ _ h1 h2

theorem pairCmp_lawful : CmpLawful pairCmp := by
  have hk := cmpLex_lawful dtCmp dtCmp_lawful
  have hc := cmpLex_lawful (fun a b : Backup => dtCmp a.timestamp b.timestamp)
    bkCmp_lawful
  constructor
  · intro p q
    unfold pairCmp
    cases hv : cmpLex dtCmp p.1 q.1 with
    | lt =>
      simp only [Ordering.then]
      have hne := hk.ne_of_lt hv
      constructor
      · intro h; cases h
      · intro h
        exact absurd (congrArg Prod.fst h) hne
    | gt =>
      simp only [Ordering.then]
      have hne := hk.ne_of_gt hv
      constructor
      · intro h; cases h
      · intro h
        exact absurd (congrArg Prod.fst h) hne
    | eq =>
      have h1 : p.1 = q.1 := (hk.eq_iff _ _).mp hv
      simp only [Ordering.then]
      rw [hc.eq_iff]
      constructor
      · intro h2
        exact Prod.ext h1 h2
      · intro h
        exact congrArg Prod.snd h
  · intro p q
    unfold pairCmp
    rw [Ordering.then_swap, hk.symm, hc.symm]
  · intro p q r h1 h2
    unfold pairCmp at *
    cases hab : cmpLex dtCmp p.1 q.1 with
    | gt => rw [hab] at h1; cases h1
    | lt =>
      cases hbd : cmpLex dtCmp q.1 r.1 with
      | gt => rw [hbd] at h2; cases h2
      | lt => rw [hk.lt_trans _ _ _ hab hbd]; rfl
      | eq =>
        have hqr : q.1 = r.1 := (hk.eq_iff _ _).mp hbd
        rw [← hqr, hab]
        rfl
    | eq =>
      have hpq : p.1 = q.1 := (hk.eq_iff _ _).mp hab
      rw [hab] at h1
      simp only [Ordering.then] at h1
      cases hbd : cmpLex dtCmp q.1 r.1 with
      | gt => rw [hbd] at h2; cases h2
      | lt =>
        rw [hpq, hbd]
        rfl
      | eq =>
        rw [hbd] at h2
        simp only [Ordering.then] at h2
        rw [hpq, hbd]
        simp only [Ordering.then]
        exact hc.lt_trans _ _ _ h1 h2

theorem pairGe_total (p q : List Datetime × List Backup) :
    pairGe p q ∨ pairGe q p := by
  unfold pairGe pairGeB
  cases hv : pairCmp p q with
  | lt =>
    right
    have hs := pairCmp_lawful.symm p q
    rw [hv] at hs
    rw [← hs]
    rfl
  | eq => left; rfl
  | gt => left; rfl

theorem pairGe_trans (p q r : List Datetime × List Backup)
    (h1 : pairGe p q) (h2 : pairGe q r) : pairGe p r := by
  unfold pairGe pairGeB at *
  cases hv : pairCmp p r with
  | eq => rfl
  | gt => rfl
  | lt =>
    exfalso
    cases hpq : pairCmp p q with
    | lt => rw [hpq] at h1; cases h1
    | eq =>
      have hpq2 : p = q := (pairCmp_lawful.eq_iff _ _).mp hpq
      rw [← hpq2, hv] at h2
      cases h2
    | gt =>
      have hs := pairCmp_lawful.symm p q
      rw [hpq] at hs
      have hqp : pairCmp q p = .lt := hs.symm
      have := pairCmp_lawful.lt_trans q p r hqp hv
      rw [this] at h2
      cases h2

theorem pairGe_antisymm (p q : List Datetime × List Backup)
    (h1 : pairGe p q) (h2 : pairGe q p) : p = q := by
  unfold pairGe pairGeB at *
  cases hv : pairCmp p q with
  | lt => rw [hv] at h1; cases h1
  | eq => exact (pairCmp_lawful.eq_iff _ _).mp hv
  | gt =>
    have hs := pairCmp_lawful.symm p q
    rw [hv] at hs
    rw [← hs] at h2
    cases h2

instance : IsTotal (List Datetime × List Backup) pairGe :=
  ⟨pairGe_total⟩

instance : IsTrans (List Datetime × List Backup) pairGe :=
  ⟨pairGe_trans⟩

instance : IsAntisymm (List Datetime × List Backup) pairGe :=
  ⟨pairGe_antisymm⟩

/-- With a total, transitive, antisymmetric order, sorting is blind to the
input order: permuted chain lists sort to the identical list. -/
theorem scanSort_eq_of_perm {c1 c2 : List (List Backup)}
    (h : c1.Perm c2) : scanSort c1 = scanSort c2 := by
  unfold scanSort
  rw [zip_scanKey, zip_scanKey]
  have hpp := h.map fun c => (scanKey c, c)
  have hperm := ((List.perm_insertionSort pairGe
    (c1.map fun c => (scanKey c, c))).trans hpp).trans
    (List.perm_insertionSort pairGe (c2.map fun c => (scanKey c, c))).symm
  have heq := List.eq_of_perm_of_sorted hperm
    (List.sorted_insertionSort pairGe _)
    (List.sorted_insertionSort pairGe _)
  rw [heq]

/-- The claim's descending order on chains: the leaf-first timestamp
sequence of the earlier chain is lexicographically not below the later
one's. -/
def chainKeyGe (c1 c2 : List Backup) : Prop :=
  cmpLex dtCmp (scanKey c1) (scanKey c2) ≠ .lt

/-- The sort phase emits the chains in descending key order. -/
theorem scanSort_sorted (chains : List (List Backup)) :
    (scanSort chains).Pairwise chainKeyGe := by
  unfold scanSort
  rw [zip_scanKey]
  have hs := List.sorted_insertionSort pairGe
    (chains.map fun c => (scanKey c, c))
  rw [List.pairwise_map]
  refine List.Pairwise.imp_of_mem ?_ hs
  intro p q hp hq hpq
  obtain ⟨cp, _, rfl⟩ := List.mem_map.mp
    ((List.perm_insertionSort pairGe _).mem_iff.mp hp)
  obtain ⟨cq, _, rfl⟩ := List.mem_map.mp
    ((List.perm_insertionSort pairGe _).mem_iff.mp hq)
  unfold chainKeyGe
  intro hlt
  unfold pairGe pairGeB pairCmp at hpq
  rw [hlt] at hpq
  cases hpq

/-- Relate two scan results: both fail, or both succeed with the same
chains up to order. -/
def OptionPerm :
    Option (List (List Backup)) → Option (List (List Backup)) → Prop
  | none, none => True
  | some l1, some l2 => l1.Perm l2
  | _, _ => False

theorem OptionPerm.refl (o : Option (List (List Backup))) : OptionPerm o o := by
  cases o with
  | none => trivial
  | some l => exact List.Perm.refl l

theorem OptionPerm.trans {a b c : Option (List (List Backup))}
    (h1 : OptionPerm a b) (h2 : OptionPerm b c) : OptionPerm a c := by
  cases a with
  | none =>
    cases b with
    | none =>
      cases c with
      | none => trivial
      | some l3 => exact h2.elim
    | some l2 => exact h1.elim
  | some l1 =>
    cases b with
    | none => exact h1.elim
    | some l2 =>
      cases c with
      | none => exact h2.elim
      | some l3 => exact List.Perm.trans h1 h2

theorem collectStep_acc_none
    (child : List String → List Backup → FSEntry → Option (List (List Backup)))
    (path : List String) (parent : List Backup) (p : String × FSEntry) :
    collectStep child path parent p none = none := by
  unfold collectStep
  cases hq : qualifies p.1 p.2 with
  | false => rfl
  | true =>
    simp only [if_true]
    cases hpb : path_to_backup p.1 (some parent) with
    | none => rfl
    | some bc =>
      cases hch : child (path ++ [p.1]) bc p.2 <;> simp [hch]

/-- `collectStep` respects `OptionPerm` in the recursive collector and in
the accumulator. -/
theorem collectStep_resp
    (child1 child2 :
      List String → List Backup → FSEntry → Option (List (List Backup)))
    (path : List String) (parent : List Backup) (p : String × FSEntry)
    (acc1 acc2 : Option (List (List Backup)))
    (hc : ∀ pa pb t2, OptionPerm (child1 pa pb t2) (child2 pa pb t2))
    (ha : OptionPerm acc1 acc2) :
    OptionPerm (collectStep child1 path parent p acc1)
      (collectStep child2 path parent p acc2) := by
  unfold collectStep
  cases hq : qualifies p.1 p.2 with
  | false => simpa using ha
  | true =>
    simp only [if_true]
    cases hpb : path_to_backup p.1 (some parent) with
    | none => trivial
    | some bc =>
      have hcc := hc (path ++ [p.1]) bc p.2
      cases h1 : child1 (path ++ [p.1]) bc p.2 with
      | none =>
        cases h2 : child2 (path ++ [p.1]) bc p.2 with
        | none => simp [h1, h2, OptionPerm]
        | some s2 =>
          rw [h1, h2] at hcc
          exact hcc.elim
      | some s1 =>
        cases h2 : child2 (path ++ [p.1]) bc p.2 with
        | none =>
          rw [h1, h2] at hcc
          exact hcc.elim
        | some s2 =>
          rw [h1, h2] at hcc
          cases acc1 with
          | none =>
            cases acc2 with
            | none => simp [h1, h2, OptionPerm]
            | some a2 => exact ha.elim
          | some a1 =>
            cases acc2 with
            | none => exact ha.elim
            | some a2 =>
              simp only [h1, h2, Option.some_bind, Option.map_some',
                OptionPerm]
              exact List.Perm.cons bc (List.Perm.append hcc ha)

theorem perm_append_swap (u v w : List (List Backup)) :
    (u ++ (v ++ w)).Perm (v ++ (u ++ w)) := by
  have h1 : u ++ (v ++ w) = (u ++ v) ++ w := by rw [List.append_assoc]
  have h2 : v ++ (u ++ w) = (v ++ u) ++ w := by rw [List.append_assoc]
  rw [h1, h2]
  exact List.perm_append_comm.append_right w

/-- Two adjacent entries can be processed in either order: the emitted
chains are the same up to permutation. -/
theorem collectStep_swap
    (child : List String → List Backup → FSEntry → Option (List (List Backup)))
    (path : List String) (parent : List Backup) (x y : String × FSEntry)
    (acc : Option (List (List Backup))) :
    OptionPerm
      (collectStep child path parent x (collectStep child path parent y acc))
      (collectStep child path parent y (collectStep child path parent x acc)) := by
  cases acc with
  | none =>
    simp only [collectStep_acc_none]
    trivial
  | some a =>
    unfold collectStep
    cases hqx : qualifies x.1 x.2 with
    | false =>
      simp only [Bool.false_eq_true, if_false]
      exact OptionPerm.refl _
    | true =>
      cases hqy : qualifies y.1 y.2 with
      | false =>
        simp only [Bool.false_eq_true, if_false, if_true]
        exact OptionPerm.refl _
      | true =>
        simp only [if_true]
        cases hpx : path_to_backup x.1 (some parent) with
        | none =>
          cases hpy : path_to_backup y.1 (some parent) with
          | none => simp [OptionPerm]
          | some bcy =>
            cases hcy : child (path ++ [y.1]) bcy y.2 with
            | none => simp [hcy, OptionPerm]
            | some sy => simp [hcy, OptionPerm]
        | some bcx =>
          cases hpy : path_to_backup y.1 (some parent) with
          | none =>
            cases hcx : child (path ++ [x.1]) bcx x.2 with
            | none => simp [hcx, OptionPerm]
            | some sx => simp [hcx, OptionPerm]
          | some bcy =>
            cases hcx : child (path ++ [x.1]) bcx x.2 with
            | none =>
              cases hcy : child (path ++ [y.1]) bcy y.2 with
              | none => simp [hcx, hcy, OptionPerm]
              | some sy => simp [hcx, hcy, OptionPerm]
            | some sx =>
              cases hcy : child (path ++ [y.1]) bcy y.2 with
              | none => simp [hcx, hcy, OptionPerm]
              | some sy =>
                simp only [hcx, hcy, Option.some_bind, Option.map_some',
                  OptionPerm]
                show ((bcx :: sx) ++ ((bcy :: sy) ++ a)).Perm
                  ((bcy :: sy) ++ ((bcx :: sx) ++ a))
                exact perm_append_swap (bcx :: sx) (bcy :: sy) a

/-- Replacing the recursive collector by a pointwise `OptionPerm`-related
one relates the folds. -/
theorem foldr_collect_congr
    (child1 child2 :
      List String → List Backup → FSEntry → Option (List (List Backup)))
    (hc : ∀ pa pb t2, OptionPerm (child1 pa pb t2) (child2 pa pb t2))
    (path : List String) (parent : List Backup) :
    ∀ es : List (String × FSEntry),
      OptionPerm (es.foldr (collectStep child1 path parent) (some []))
        (es.foldr (collectStep child2 path parent) (some [])) := by
  intro es
  induction es with
  | nil => exact List.Perm.refl []
  | cons p rest ih =>
    rw [List.foldr_cons, List.foldr_cons]
    exact collectStep_resp child1 child2 path parent p _ _ hc ih

/-- Folding over two enumerations of the same entries yields the same
chains up to permutation. -/
theorem foldr_collect_perm
    (child : List String → List Backup → FSEntry → Option (List (List Backup)))
    (path : List String) (parent : List Backup)
    {es1 es2 : List (String × FSEntry)} (h : es1.Perm es2) :
    OptionPerm (es1.foldr (collectStep child path parent) (some []))
      (es2.foldr (collectStep child path parent) (some [])) := by
  induction h with
  | nil => exact List.Perm.refl []
  | cons x _ ih =>
    rw [List.foldr_cons, List.foldr_cons]
    exact collectStep_resp child child path parent x _ _
      (fun pa pb t2 => OptionPerm.refl _) ih
  | swap x y l =>
    rw [List.foldr_cons, List.foldr_cons, List.foldr_cons, List.foldr_cons]
    exact collectStep_swap child path parent y x _
  | trans _ _ ih1 ih2 => exact ih1.trans ih2

/-- The scan collects the same chains, up to permutation, under every
enumeration order (or fails identically). -/
theorem collectE_enum_perm
    (enum1 enum2 : List String → List (String × FSEntry) →
      List (String × FSEntry))
    (h1 : ∀ path es, (enum1 path es).Perm es)
    (h2 : ∀ path es, (enum2 path es).Perm es) :
    ∀ (fuel : Nat) (path : List String) (parent : List Backup) (t : FSEntry),
      OptionPerm (collectE enum1 fuel path parent t)
        (collectE enum2 fuel path parent t) := by
  intro fuel
  induction fuel with
  | zero => intro path parent t; trivial
  | succ fuel ih =>
    intro path parent t
    cases t with
    | file => exact List.Perm.refl []
    | dir es =>
      rw [collectE, collectE]
      have hper : (enum1 path es).Perm (enum2 path es) :=
        (h1 path es).trans (h2 path es).symm
      exact (foldr_collect_perm (collectE enum1 fuel) path parent
        hper).trans
        (foldr_collect_congr (collectE enum1 fuel) (collectE enum2 fuel)
          (fun pa pb t2 => ih pa pb t2) path parent (enum2 path es))

/-- C5: the list `list_backups` returns is sorted descending by
lexicographic comparison of each chain's leaf-first timestamp sequence,
and the returned list (indeed the whole result, error included) is the
same under every directory enumeration order the OS could produce during
the scan. -/
theorem c5_scan_sorted_enum_independent (t : FSEntry)
    (enum : List String → List (String × FSEntry) → List (String × FSEntry))
    (henum : ∀ path es, (enum path es).Perm es) :
    scanWith enum t = list_backups t ∧
    ∀ l, list_backups t = some l → l.Pairwise chainKeyGe := by
  constructor
  · have hop := collectE_enum_perm enum idEnum henum
      (fun path es => List.Perm.refl es) (FSEntry.size t) [] [] t
    rw [list_backups]
    unfold scanWith
    cases hc1 : collectE enum (FSEntry.size t) [] [] t with
    | none =>
      cases hc2 : collectE idEnum (FSEntry.size t) [] [] t with
      | none => rfl
      | some l2 =>
        rw [hc1, hc2] at hop
        exact hop.elim
    | some l1 =>
      cases hc2 : collectE idEnum (FSEntry.size t) [] [] t with
      | none =>
        rw [hc1, hc2] at hop
        exact hop.elim
      | some l2 =>
        rw [hc1, hc2] at hop
        simp only [Option.map_some', Option.some_inj]
        exact scanSort_eq_of_perm hop
  · intro l hl
    obtain ⟨chains, hchains, hsort⟩ :
        ∃ chains, collectE idEnum (FSEntry.size t) [] [] t = some chains ∧
          l = scanSort chains := by
      cases hcc : collectE idEnum (FSEntry.size t) [] [] t with
      | none => rw [list_backups, scanWith, hcc] at hl; cases hl
      | some chains =>
        refine ⟨chains, rfl, ?_⟩
        rw [list_backups, scanWith, hcc] at hl
        simpa using hl.symm
    rw [hsort]
    exact scanSort_sorted chains

/-- The reversed enumeration order. -/
def revEnum : List String → List (String × FSEntry) → List (String × FSEntry) :=
  fun _ es => es.reverse

/-- A layout with sibling backups stored out of timestamp order. -/
def c5Tree : FSEntry :=
  .dir [("2020-03-03_00:00:00", .dir [("_data", .dir [])]),
    ("2022-02-02_00:00:00", .dir [("_data", .dir []),
      ("2022-08-01_12:00:00", .dir [("_data", .dir [])])]),
    ("2021-07-07_00:00:00", .dir [("_data", .dir [])])]

/-- Witness for `c5_scan_sorted_enum_independent` at `c5Tree` with the
reversed enumeration order. -/
theorem c5_scan_sorted_enum_independent_witness :
    (∀ path es, (revEnum path es).Perm es) ∧
    (scanWith revEnum c5Tree = list_backups c5Tree ∧
      ∀ l, list_backups c5Tree = some l → l.Pairwise chainKeyGe) :=
  ⟨fun _ es => es.reverse_perm,
    c5_scan_sorted_enum_independent c5Tree revEnum
      fun _ es => es.reverse_perm⟩
